import Mathlib

/-!
Verification of the `http-parser` parsing pipeline.

Strings from the TypeScript source are modelled as `List Char` (`Str`).
Each TypeScript class is embedded as a namespace whose functions mirror the
source line by line; source functions that can `throw` return `Except Str _`.
-/

namespace HttpParser

/-- Strings are modelled as lists of characters. -/
abbrev Str := List Char

/-- Model of the JavaScript whitespace class `\s` (and of `String.prototype.trim`)
restricted to the ASCII whitespace characters. -/
def jsWs (c : Char) : Bool :=
  c == ' ' || c == '\t' || c == '\n' || c == '\r' || c == '\x0b' || c == '\x0c'

/-- Model of JavaScript `String.prototype.trimStart`. -/
def jsTrimStart (s : Str) : Str := s.dropWhile jsWs

/-- Model of JavaScript `String.prototype.trim`. -/
def jsTrim (s : Str) : Str :=
  (((s.dropWhile jsWs).reverse).dropWhile jsWs).reverse

/-- Model of JavaScript `String.prototype.toUpperCase` (ASCII). -/
def jsUpper (s : Str) : Str := s.map Char.toUpper

/-- Model of JavaScript `String.prototype.toLowerCase` (ASCII). -/
def jsLower (s : Str) : Str := s.map Char.toLower

/-- Model of `text.split(/\s+/)` applied to an already trimmed string:
maximal runs of non-whitespace characters, in order. -/
def splitWsAux : Str → Str → List Str
  | [], acc => if acc.isEmpty then [] else [acc]
  | c :: rest, acc =>
    if jsWs c then
      if acc.isEmpty then splitWsAux rest [] else acc :: splitWsAux rest []
    else
      splitWsAux rest (acc ++ [c])

/-- `s.split(/\s+/)` for a string with no leading whitespace. -/
def splitWs (s : Str) : List Str := splitWsAux s []

/-- Splits at the first occurrence of character `c` (model of
`indexOf` plus two `slice` calls): the parts before and after `c`,
or `none` when `indexOf` returns `-1`. -/
def splitFirst (c : Char) : Str → Option (Str × Str)
  | [] => none
  | d :: rest =>
    if d == c then some ([], rest)
    else (splitFirst c rest).map (fun p => (d :: p.1, p.2))

/-- `Array.prototype.join(sep)` over strings. -/
def joinSep (sep : Str) : List Str → Str
  | [] => []
  | [s] => s
  | s :: rest => s ++ sep ++ joinSep sep rest

/-- One scanned input line as produced by `LineScanner.scan`
(`src/scanner/line-scanner.ts`): 1-based line number, character offsets into
the source (`endOffset` exclusive), and the line text without its terminator. -/
structure LineContext where
  lineNumber : Nat
  startOffset : Nat
  endOffset : Nat
  text : Str
deriving DecidableEq, Repr

namespace LineScanner

/-- The scanning loop of `LineScanner.scan`: `acc` is the text of the line
currently being read, `start` is its start offset and `ln` its line number.
A `\r\n` pair counts as a single break; a lone `\n` or `\r` also breaks. -/
def scanAux : Str → Str → Nat → Nat → List LineContext
  | [], acc, start, ln => [⟨ln, start, start + acc.length, acc⟩]
  | '\r' :: '\n' :: rest, acc, start, ln =>
    ⟨ln, start, start + acc.length, acc⟩ ::
      scanAux rest [] (start + acc.length + 2) (ln + 1)
  | '\r' :: rest, acc, start, ln =>
    ⟨ln, start, start + acc.length, acc⟩ ::
      scanAux rest [] (start + acc.length + 1) (ln + 1)
  | '\n' :: rest, acc, start, ln =>
    ⟨ln, start, start + acc.length, acc⟩ ::
      scanAux rest [] (start + acc.length + 1) (ln + 1)
  | c :: rest, acc, start, ln => scanAux rest (acc ++ [c]) start ln

/-- `LineScanner.scan` from `src/scanner/line-scanner.ts`.  The explicit
empty-input special case of the source coincides with the loop's behaviour on
empty input, so no separate branch is needed. -/
def scan (t : Str) : List LineContext := scanAux t [] 0 1

end LineScanner

/-- Concatenation of line texts interleaved with the original inter-line
separator characters of `t` (the characters between one line's `endOffset`
and the next line's `startOffset`). -/
def reconstruct (t : Str) : List LineContext → Str
  | [] => []
  | [lc] => lc.text
  | lc :: lc' :: rest =>
    lc.text ++ (t.drop lc.endOffset).take (lc'.startOffset - lc.endOffset) ++
      reconstruct t (lc' :: rest)



/-- A group of lines between `###` delimiters
(`src/segmenter/segmenter.ts`). -/
structure Segment where
  segmentId : Nat
  startLine : Nat
  endLine : Nat
  lines : List LineContext
deriving DecidableEq, Repr

namespace Segmenter

/-- `Segmenter.isDelimiter`: the regex `^\s*#{3,}\s*$` — optional whitespace,
three or more `#`, optional whitespace. -/
def isDelimiter (text : Str) : Bool :=
  let rest := text.dropWhile jsWs
  let hashes := rest.takeWhile (· == '#')
  3 ≤ hashes.length && (rest.drop hashes.length).all jsWs

/-- `Segmenter.createSegment`. -/
def createSegment (segmentId : Nat) (lines : List LineContext) : Segment :=
  { segmentId := segmentId
    startLine := ((lines.head?).map LineContext.lineNumber).getD 0
    endLine := ((lines.getLast?).map LineContext.lineNumber).getD 0
    lines := lines }

/-- `Segmenter.hasNonEmptyLines`. -/
def hasNonEmptyLines (seg : Segment) : Bool :=
  seg.lines.any (fun line => 0 < (jsTrim line.text).length)

/-- The accumulation loop of `Segmenter.segment`: `cur` is the current run of
non-delimiter lines and `sid` the next segment id to assign. -/
def segmentAux : List LineContext → List LineContext → Nat → List Segment
  | [], cur, sid => if cur.isEmpty then [] else [createSegment sid cur]
  | line :: rest, cur, sid =>
    if isDelimiter line.text then
      if cur.isEmpty then segmentAux rest [] sid
      else createSegment sid cur :: segmentAux rest [] (sid + 1)
    else segmentAux rest (cur ++ [line]) sid

/-- `Segmenter.segment`: group lines at delimiters, then filter out segments
that consist only of blank/whitespace lines. -/
def segment (lines : List LineContext) : List Segment :=
  (segmentAux lines [] 0).filter hasNonEmptyLines

end Segmenter

/-- `Header` (`src/types/types.ts`): name casing preserved. -/
structure Header where
  name : Str
  value : Str
deriving DecidableEq, Repr

/-- Result of `HeaderParser.parse`. -/
structure HeaderParserResult where
  headers : List Header
  consumedLinesCount : Nat
deriving DecidableEq, Repr

namespace HeaderParser

/-- `HeaderParser.parse` (`src/parsers/header-parser.ts`): consume lines until
the first blank line (not consumed) or a line without a colon (not consumed);
a consumed line contributes a header when its trimmed name is nonempty. -/
def parse : List LineContext → HeaderParserResult
  | [] => ⟨[], 0⟩
  | line :: rest =>
    if jsTrim line.text = [] then ⟨[], 0⟩
    else
      match splitFirst ':' line.text with
      | some (before, after) =>
        let name := jsTrim before
        let value := jsTrim after
        let r := parse rest
        if name = [] then ⟨r.headers, r.consumedLinesCount + 1⟩
        else ⟨⟨name, value⟩ :: r.headers, r.consumedLinesCount + 1⟩
      | none => ⟨[], 0⟩

/-- A line that header parsing consumes: non-blank and containing a colon. -/
def consumes (line : LineContext) : Bool :=
  !(jsTrim line.text).isEmpty && (splitFirst ':' line.text).isSome

/-- The header (if any) that one consumed line contributes. -/
def emitted (line : LineContext) : Option Header :=
  match splitFirst ':' line.text with
  | some (before, after) =>
    if jsTrim before = [] then none
    else some ⟨jsTrim before, jsTrim after⟩
  | none => none

end HeaderParser

/-- `QueryParam` (`src/types/types.ts`). -/
structure QueryParam where
  key : Str
  value : Str
deriving DecidableEq, Repr

/-- Result of `QueryParser.parse`. -/
structure QueryParserResult where
  queryParams : List QueryParam
  consumedLinesCount : Nat
deriving DecidableEq, Repr

namespace QueryParser

/-- `QueryParser.parse` (`src/parsers/query-parser.ts`): consume leading lines
whose trimmed text starts with `?` or `&`; strip the prefix character, trim,
split on the first `=`; a line whose remainder is empty is consumed without
contributing a parameter. -/
def parse : List LineContext → QueryParserResult
  | [] => ⟨[], 0⟩
  | line :: rest =>
    let trimmedText := jsTrim line.text
    if trimmedText.head? = some '?' ∨ trimmedText.head? = some '&' then
      let content := jsTrim (trimmedText.drop 1)
      let r := parse rest
      if content = [] then ⟨r.queryParams, r.consumedLinesCount + 1⟩
      else
        match splitFirst '=' content with
        | some (k, v) =>
          ⟨⟨jsTrim k, jsTrim v⟩ :: r.queryParams, r.consumedLinesCount + 1⟩
        | none => ⟨⟨jsTrim content, []⟩ :: r.queryParams, r.consumedLinesCount + 1⟩
    else ⟨[], 0⟩

/-- A line that query parsing consumes: trimmed text starts with `?` or `&`. -/
def consumes (line : LineContext) : Bool :=
  (jsTrim line.text).head? = some '?' || (jsTrim line.text).head? = some '&'

/-- The parameter (if any) that one consumed line contributes. -/
def emitted (line : LineContext) : Option QueryParam :=
  let content := jsTrim ((jsTrim line.text).drop 1)
  if content = [] then none
  else
    match splitFirst '=' content with
    | some (k, v) => some ⟨jsTrim k, jsTrim v⟩
    | none => some ⟨jsTrim content, []⟩

end QueryParser

/-- `ParsedHTTPRequestLine` (`src/types/types.ts`). -/
structure ParsedHTTPRequestLine where
  method : Option Str
  url : Str
  httpVersion : Option Str
deriving DecidableEq, Repr

namespace HTTPRequestLineParser

/-- `HTTPRequestLineParser.VALID_HTTP_METHODS`. -/
def VALID_HTTP_METHODS : List Str :=
  ["GET", "HEAD", "OPTIONS", "TRACE", "PUT", "DELETE", "POST", "PATCH",
    "CONNECT"].map String.toList

/-- `HTTPRequestLineParser.isValidHttpMethod`. -/
def isValidHttpMethod (method : Str) : Bool :=
  VALID_HTTP_METHODS.contains (jsUpper method)

/-- `HTTPRequestLineParser.validate`. -/
def validate (line : Str) : Bool :=
  if (jsTrim line).isEmpty then false
  else
    let parts := splitWs (jsTrim line)
    if parts.length == 1 then true
    else if parts.length < 2 then false
    else isValidHttpMethod (jsUpper (parts.getD 0 []))

/-- `HTTPRequestLineParser.extractMethod`; the source `throw`s are modelled
as `Except.error`. -/
def extractMethod (parts : List Str) : Except Str Str :=
  match parts with
  | [] => .error "Cannot extract method from empty parts array".toList
  | p :: _ =>
    let method := jsUpper p
    if isValidHttpMethod method then .ok method
    else .error ("Invalid HTTP method: ".toList ++ method)

/-- `HTTPRequestLineParser.extractUrl`. -/
def extractUrl (parts : List Str) : Except Str Str :=
  if parts.length < 2 then .error "URL not found in request line".toList
  else
    let url := parts.getD 1 []
    if url.isEmpty then .error "URL is empty".toList
    else .ok url

/-- `HTTPRequestLineParser.extractHttpVersion`. -/
def extractHttpVersion (parts : List Str) : Option Str :=
  if parts.length < 3 then none
  else
    let version := parts.getD 2 []
    if "HTTP/".toList.isPrefixOf version then some version
    else none

/-- `HTTPRequestLineParser.parse` (`src/parsers/request-line.ts`):
the main pipeline's request-line parser, which `throw`s (here: returns
`Except.error`) on an invalid request line such as an unknown method token. -/
def parse (line : Str) : Except Str ParsedHTTPRequestLine :=
  if !validate line then .error ("Invalid request line: ".toList ++ line)
  else
    let trimmedLine := jsTrim line
    let parts := splitWs trimmedLine
    let firstPart := parts.getD 0 []
    let looksLikeUrl :=
      "http://".toList.isPrefixOf firstPart ||
        "https://".toList.isPrefixOf firstPart ||
        !isValidHttpMethod firstPart
    if looksLikeUrl && parts.length == 1 then
      .ok ⟨none, firstPart, none⟩
    else do
      let method ← extractMethod parts
      let url ← extractUrl parts
      .ok ⟨some method, url, extractHttpVersion parts⟩

end HTTPRequestLineParser

/-- `ResponseLine` (`src/parsers/response-line.ts`). -/
structure ResponseLine where
  httpVersion : Option Str
  statusCode : Option Int
  statusText : Option Str
deriving DecidableEq, Repr

/-- Model of the source's status-code test
`!isNaN(parseInt(part, 10)) && String(parseInt(part, 10)) === part`:
it accepts exactly the canonical decimal representations of integers. -/
def parseIntCanonical (s : Str) : Option Int :=
  let digitsToNat : Str → Nat := fun ds => ds.foldl (fun n c => n * 10 + (c.toNat - 48)) 0
  if s = ['0'] then some 0
  else
    match s with
    | '-' :: ds =>
      if ds ≠ [] ∧ ds.all Char.isDigit ∧ ds.head? ≠ some '0' then
        some (-(digitsToNat ds : Int))
      else none
    | ds =>
      if ds ≠ [] ∧ ds.all Char.isDigit ∧ ds.head? ≠ some '0' then
        some (digitsToNat ds : Int)
      else none

namespace ResponseLineParser

/-- `ResponseLineParser.parse` (`src/parsers/response-line.ts`): optional
`HTTP/` version token, optional integer status code, remainder joined by
single spaces as status text. -/
def parse (text : Str) : ResponseLine :=
  let trimmed := jsTrim text
  if trimmed.isEmpty then ⟨none, none, none⟩
  else
    let parts := splitWs trimmed
    let hasVersion := "HTTP/".toList.isPrefixOf (jsUpper (parts.getD 0 []))
    let httpVersion : Option Str :=
      if hasVersion then some (jsUpper (parts.getD 0 [])) else none
    let idx0 : Nat := if hasVersion then 1 else 0
    if parts.length ≤ idx0 then ⟨httpVersion, none, none⟩
    else
      let codeOpt := parseIntCanonical (parts.getD idx0 [])
      let idx1 : Nat := if codeOpt.isSome then idx0 + 1 else idx0
      let statusText : Option Str :=
        if idx1 < parts.length then some (joinSep [' '] (parts.drop idx1))
        else none
      ⟨httpVersion, codeOpt, statusText⟩

end ResponseLineParser

/-- `MessageType` (`src/types/types.ts`). -/
inductive MessageType
  | request
  | response
deriving DecidableEq, Repr

/-- `SegmentType` (`src/types/types.ts`). -/
inductive SegmentType
  | http
  | curl
  | graphql
deriving DecidableEq, Repr

/-- `ClassifiedSegment` (`src/types/types.ts`). -/
structure ClassifiedSegment extends Segment where
  messageType : MessageType
  segmentType : SegmentType
  firstNonEmptyLineNumber : Nat
  firstNonEmptyLineText : Str
deriving DecidableEq, Repr

namespace SegmentClassifier

/-- `SegmentClassifier.findSignificantLine` (`src/segmenter/classifier.ts`):
first line that is not blank and does not start (after trim) with `#` or `@`. -/
def findSignificantLine (lines : List LineContext) : Option LineContext :=
  lines.find? (fun line =>
    let trimmed := jsTrim line.text
    0 < trimmed.length && trimmed.head? ≠ some '#' && trimmed.head? ≠ some '@')

/-- `SegmentClassifier.detectMessageType`. -/
def detectMessageType (text : Str) : MessageType :=
  if "HTTP/".toList.isPrefixOf (jsUpper (jsTrimStart text)) then .response
  else .request

/-- The header scan inside `SegmentClassifier.detectSegmentType`: is there an
`X-REQUEST-TYPE: GraphQL` header line before the first blank line? -/
def hasGraphQLHeader : List LineContext → Bool
  | [] => false
  | line :: rest =>
    let lineText := jsTrim line.text
    if lineText.length == 0 then false
    else if isGraphQLHeaderLine lineText then true
    else hasGraphQLHeader rest
where
  /-- The regex `^x-request-type:\s*graphql\s*$` (case-insensitive) applied to
  the trimmed line text. -/
  isGraphQLHeaderLine (t : Str) : Bool :=
    let low := jsLower t
    "x-request-type:".toList.isPrefixOf low &&
      jsTrim (low.drop 15) = "graphql".toList

/-- `SegmentClassifier.detectSegmentType`. -/
def detectSegmentType (lines : List LineContext) (significantLineIndex : Nat) :
    SegmentType :=
  match lines.get? significantLineIndex with
  | none => .http
  | some significantLine =>
    let firstLineText := jsLower (jsTrimStart significantLine.text)
    if "curl".toList.isPrefixOf firstLineText then .curl
    else if hasGraphQLHeader (lines.drop (significantLineIndex + 1)) then .graphql
    else .http

/-- `SegmentClassifier.classifySegment` (`src/segmenter/classifier.ts`). -/
def classifySegment (seg : Segment) : ClassifiedSegment :=
  match findSignificantLine seg.lines with
  | none =>
    { seg with
        messageType := .request
        segmentType := .http
        firstNonEmptyLineNumber := seg.startLine
        firstNonEmptyLineText := [] }
  | some significantLine =>
    let significantLineIndex :=
      (seg.lines.findIdx? (fun l => l.lineNumber == significantLine.lineNumber)).getD 0
    { seg with
        messageType := detectMessageType significantLine.text
        segmentType := detectSegmentType seg.lines significantLineIndex
        firstNonEmptyLineNumber := significantLine.lineNumber
        firstNonEmptyLineText := significantLine.text }

/-- `SegmentClassifier.classify`. -/
def classify (segments : List Segment) : List ClassifiedSegment :=
  segments.map classifySegment

end SegmentClassifier

/-- Host JSON values (the result type of the host language's JSON parser). -/
inductive Json where
  | null
  | bool (b : Bool)
  | num (n : Int)
  | str (s : Str)
  | arr (elems : List Json)
  | obj (fields : List (Str × Json))

/-- The host language's JSON parser is an external collaborator of the body
parser; it is modelled abstractly as a function returning either a `Json`
value or the thrown error's message. -/
abbrev JsonParse := Str → Except Str Json

/-- A form field value: a string, or an array accumulated from duplicates. -/
inductive FormVal where
  | single (s : Str)
  | multi (xs : List Str)
deriving DecidableEq, Repr

/-- `FormPart` (`src/types/body-parser-types.ts`). -/
structure FormPart where
  name : Str
  value : Str
  filename : Option Str
  contentType : Option Str
  headers : Option (List (Str × Str))
deriving DecidableEq, Repr

/-- `HttpBodyContent` (`src/types/body-parser-types.ts`); the constant
`protocol: 'http'` wrapper of `HttpBody` carries no information and is
omitted. -/
inductive HttpBodyContent where
  | json (data : Json)
  | text (text : Str)
  | form (fields : List (Str × FormVal))
  | multipart (boundary : Str) (parts : List FormPart)

/-- The error payload of an `UnparsedBody`. -/
structure BodyError where
  message : Str
  lineNumber : Option Nat
deriving DecidableEq, Repr

/-- `HttpBodyResult` (`src/types/body-parser-types.ts`): a parsed body or an
error-shaped result, both carrying the raw text, content type and byte size. -/
inductive HttpBodyResult where
  | parsed (content : HttpBodyContent) (raw : Str) (contentType : Option Str) (size : Nat)
  | error (err : BodyError) (raw : Str) (contentType : Option Str) (size : Nat)

/-- UTF-8 byte length (model of `new TextEncoder().encode(s).length`). -/
def utf8Len (s : Str) : Nat := (s.map Char.utf8Size).sum

/-- Hex digit test (both cases), as accepted by `decodeURIComponent`. -/
def isHexDigitChar (c : Char) : Bool :=
  c.isDigit || ('a' ≤ c && c ≤ 'f') || ('A' ≤ c && c ≤ 'F')

/-- Hex digit value. -/
def hexVal (c : Char) : Nat :=
  if c.isDigit then c.toNat - 48 else (c.toLower.toNat - 97) + 10

/-- Modelled from the spec: the host `decodeURIComponent` (ASCII `%HH`
sequences; a malformed sequence throws `URIError`). -/
def decodeURIComponentM : Str → Except Str Str
  | [] => .ok []
  | '%' :: c1 :: c2 :: rest =>
    if isHexDigitChar c1 && isHexDigitChar c2 then do
      let r ← decodeURIComponentM rest
      .ok (Char.ofNat (hexVal c1 * 16 + hexVal c2) :: r)
    else .error "URI malformed".toList
  | '%' :: _ => .error "URI malformed".toList
  | c :: rest => do
    let r ← decodeURIComponentM rest
    .ok (c :: r)

/-- JavaScript `String.prototype.split(c)` for a single-character separator. -/
def splitChar (c : Char) : Str → List Str
  | [] => [[]]
  | d :: rest =>
    let r := splitChar c rest
    if d == c then [] :: r
    else
      match r with
      | [] => [[d]]
      | h :: t => (d :: h) :: t

/-- `String.prototype.split(sep)` for a non-empty multi-character separator
(fuel-based recursion; `fuel ≥ s.length + 1` always suffices). -/
def splitStrAux (sep : Str) : Nat → Str → Str → List Str
  | 0, s, acc => [acc ++ s]
  | fuel + 1, s, acc =>
    match s with
    | [] => [acc]
    | c :: rest =>
      if sep.isPrefixOf s then acc :: splitStrAux sep fuel (s.drop sep.length) []
      else splitStrAux sep fuel rest (acc ++ [c])

/-- `String.prototype.split(sep)` for a non-empty separator. -/
def splitStr (sep s : Str) : List Str := splitStrAux sep (s.length + 1) s []

/-- JavaScript `String.prototype.includes`: substring test. -/
def hasInfix (s pat : Str) : Bool :=
  if pat.isPrefixOf s then true
  else
    match s with
    | [] => false
    | _ :: rest => hasInfix rest pat

/-- First-occurrence regex capture for a pattern `pre([^stop]+)stop`, as used
for `name="([^"]+)"` and `filename="([^"]+)"`; mirrors the regex engine's
search from each successive start position. -/
def regexCapture (pre : Str) (stop : Char) : Str → Option Str
  | [] => none
  | s@(_ :: rest) =>
    if pre.isPrefixOf s then
      let afterPre := s.drop pre.length
      let cap := afterPre.takeWhile (· ≠ stop)
      if cap.isEmpty || ((afterPre.drop cap.length).head? ≠ some stop) then
        regexCapture pre stop rest
      else some cap
    else regexCapture pre stop rest

namespace BodyParser

/-- `BodyParser.extractContentType`. -/
def extractContentType (headers : List Header) : Option Str :=
  (headers.find? (fun h => jsLower h.name = "content-type".toList)).map Header.value

/-- `BodyParser.calculateSize`. -/
def calculateSize (rawBody : Str) : Nat := utf8Len rawBody

/-- `BodyParser.createSuccessResult`; `content = none` stands for the
source's `null` argument, which becomes an empty text body. -/
def createSuccessResult (content : Option HttpBodyContent) (raw : Str)
    (contentType : Option Str) (size : Option Nat) : HttpBodyResult :=
  let bodySize := size.getD (calculateSize raw)
  match content with
  | none => .parsed (.text []) raw contentType bodySize
  | some c => .parsed c raw contentType bodySize

/-- `BodyParser.createErrorResult`. -/
def createErrorResult (message raw : Str) (contentType : Option Str)
    (size : Option Nat) (lineNumber : Option Nat) : HttpBodyResult :=
  .error ⟨message, lineNumber⟩ raw contentType (size.getD (calculateSize raw))

/-- `BodyParser.parseJson`; the `throw` on invalid JSON is the `Except.error`. -/
def parseJson (jsonParse : JsonParse) (rawBody : Str) :
    Except Str HttpBodyContent :=
  let trimmed := jsTrim rawBody
  if trimmed.isEmpty then .ok (.json .null)
  else
    match jsonParse trimmed with
    | .ok data => .ok (.json data)
    | .error e => .error ("Invalid JSON: ".toList ++ e)

/-- The duplicate-key accumulation of `BodyParser.parseFormData`:
a repeated key turns the value into an array, preserving insertion order. -/
def addField (fields : List (Str × FormVal)) (k v : Str) :
    List (Str × FormVal) :=
  match fields with
  | [] => [(k, .single v)]
  | (k', fv) :: rest =>
    if k' = k then
      match fv with
      | .single s => (k', .multi [s, v]) :: rest
      | .multi xs => (k', .multi (xs ++ [v])) :: rest
    else (k', fv) :: addField rest k v

/-- `BodyParser.parseFormData`; `decodeURIComponent` failures propagate as
thrown errors (`Except.error`). -/
def parseFormData (rawBody : Str) : Except Str (List (Str × FormVal)) :=
  if (jsTrim rawBody).isEmpty then .ok []
  else
    (splitChar '&' rawBody).foldlM
      (fun fields pair => do
        let parts := splitChar '=' pair
        let key := parts.getD 0 []
        if key.isEmpty then .ok fields
        else do
          let decodedKey ← decodeURIComponentM (jsTrim key)
          let decodedValue ←
            match parts.get? 1 with
            | some v => do
              let d ← decodeURIComponentM
                (v.map (fun c => if c = '+' then ' ' else c))
              Except.ok (jsTrim d)
            | none => Except.ok ([] : Str)
          .ok (addField fields decodedKey decodedValue))
      []

/-- The boundary extraction of `BodyParser.parseMultipart`: the regex
`boundary=([^;]+)` (case-insensitive), searched from each start position. -/
def boundaryMatchAux : Str → Option Str
  | [] => none
  | s@(_ :: rest) =>
    if "boundary=".toList.isPrefixOf (jsLower s) then
      let cap := (s.drop 9).takeWhile (· ≠ ';')
      if cap.isEmpty then boundaryMatchAux rest else some cap
    else boundaryMatchAux rest

/-- The quote stripping `replace(/^["']|["']$/g, '')`. -/
def stripQuotes (s : Str) : Str :=
  let s1 := if s.head? = some '"' ∨ s.head? = some '\'' then s.drop 1 else s
  if s1.getLast? = some '"' ∨ s1.getLast? = some '\'' then s1.dropLast else s1

/-- The header-reading loop of `BodyParser.parseMultipartPart`: returns the
collected (lower-cased) part headers, the last `Content-Disposition` value,
and `headerEndIndex` (0 when no blank line was found, as in the source). -/
def partHeaderLoop (lines : List Str) : List (Str × Str) × Option Str × Nat :=
  go lines 0 [] none
where
  setHeader (hs : List (Str × Str)) (k v : Str) : List (Str × Str) :=
    match hs with
    | [] => [(k, v)]
    | (k', v') :: rest =>
      if k' = k then (k', v) :: rest else (k', v') :: setHeader rest k v
  go : List Str → Nat → List (Str × Str) → Option Str →
      List (Str × Str) × Option Str × Nat
  | [], _, hs, cd => (hs, cd, 0)
  | line :: rest, i, hs, cd =>
    if (jsTrim line).isEmpty then (hs, cd, i + 1)
    else
      match splitFirst ':' line with
      | some (before, after) =>
        let name := jsTrim before
        let value := jsTrim after
        let hs' := setHeader hs (jsLower name) value
        let cd' := if jsLower name = "content-disposition".toList then some value else cd
        go rest (i + 1) hs' cd'
      | none => go rest (i + 1) hs cd

/-- `BodyParser.parseMultipartPart`. -/
def parseMultipartPart (sect : Str) : Option FormPart :=
  let lines := splitChar '\n' sect
  let (headers, contentDisposition, headerEndIndex) := partHeaderLoop lines
  match contentDisposition with
  | none => none
  | some cd =>
    match regexCapture "name=\"".toList '"' cd with
    | none => none
    | some name =>
      let filename := regexCapture "filename=\"".toList '"' cd
      let partContentType :=
        (headers.find? (fun h => h.1 = "content-type".toList)).map Prod.snd
      let valueLines := lines.drop headerEndIndex
      let value := jsTrim (joinSep ['\n'] valueLines)
      some
        { name := name
          value := value
          filename := filename
          contentType := partContentType
          headers := if headers.length > 0 then some headers else none }

/-- `BodyParser.parseMultipart`; the `throw`s for a missing content type or
boundary are `Except.error`s. -/
def parseMultipart (rawBody : Str) (contentType : Option Str) :
    Except Str HttpBodyContent :=
  match contentType with
  | none => .error "Missing Content-Type header with boundary for multipart".toList
  | some ct =>
    match boundaryMatchAux ct with
    | none => .error "Missing boundary in Content-Type header".toList
    | some cap =>
      let boundary := stripQuotes (jsTrim cap)
      let delimiter := "--".toList ++ boundary
      let sections := splitStr delimiter rawBody
      let parts := sections.filterMap (fun sect =>
        let trimmed := jsTrim sect
        if trimmed = [] ∨ trimmed = "--".toList then none
        else parseMultipartPart trimmed)
      .ok (.multipart boundary parts)

/-- `BodyParser.parseText`. -/
def parseTextBody (rawBody : Str) : HttpBodyContent := .text rawBody

/-- `BodyParser.parseByContentType`. -/
def parseByContentType (jsonParse : JsonParse) (rawBody : Str)
    (contentType : Option Str) : Except Str HttpBodyContent :=
  let normalizedType := jsTrim (jsLower (contentType.getD []))
  if hasInfix normalizedType "application/json".toList ||
      hasInfix normalizedType "text/json".toList then
    parseJson jsonParse rawBody
  else if hasInfix normalizedType "application/x-www-form-urlencoded".toList then do
    let fields ← parseFormData rawBody
    .ok (.form fields)
  else if hasInfix normalizedType "multipart/form-data".toList then
    parseMultipart rawBody contentType
  else .ok (parseTextBody rawBody)

/-- `BodyParser.parse` (`src/parsers/body-parser.ts`): the try/catch of the
source makes this function total — thrown parse errors become error-shaped
results, never exceptions across the component boundary. -/
def parse (jsonParse : JsonParse) (lines : List LineContext)
    (headers : List Header) : HttpBodyResult :=
  if lines.isEmpty then createSuccessResult none [] none none
  else
    let rawBody := joinSep ['\n'] (lines.map LineContext.text)
    let contentType := extractContentType headers
    let size := calculateSize rawBody
    if jsTrim rawBody = [] then
      let normalizedType := jsTrim (jsLower (contentType.getD []))
      if hasInfix normalizedType "application/x-www-form-urlencoded".toList then
        createSuccessResult (some (.form [])) rawBody contentType (some size)
      else createSuccessResult none rawBody contentType (some size)
    else
      match parseByContentType jsonParse rawBody contentType with
      | .ok content => createSuccessResult (some content) rawBody contentType (some size)
      | .error msg => createErrorResult msg rawBody contentType (some size) none

end BodyParser

/-- Whitespace accepted by the JSON grammar. -/
def jsonSkipWs (s : Str) : Str :=
  s.dropWhile (fun c => c == ' ' || c == '\t' || c == '\n' || c == '\r')

mutual

/-- Modelled from the spec: the host language's JSON parser (`JSON.parse`),
which is an external collaborator of `BodyParser.parseJson`; modelled on the
JSON subset exercised by this development (null, booleans, integers,
escape-free strings, arrays, objects), with fuel for termination. -/
def jsonValAux : Nat → Str → Except Str (Json × Str)
  | 0, _ => .error "Maximum call stack size exceeded".toList
  | fuel + 1, s0 =>
    let s := jsonSkipWs s0
    match s with
    | [] => .error "Unexpected end of JSON input".toList
    | 'n' :: rest =>
      if "ull".toList.isPrefixOf rest then .ok (.null, rest.drop 3)
      else .error "Unexpected token".toList
    | 't' :: rest =>
      if "rue".toList.isPrefixOf rest then .ok (.bool true, rest.drop 3)
      else .error "Unexpected token".toList
    | 'f' :: rest =>
      if "alse".toList.isPrefixOf rest then .ok (.bool false, rest.drop 4)
      else .error "Unexpected token".toList
    | '"' :: rest =>
      let cap := rest.takeWhile (fun c => c != '"' && c != '\\')
      (match rest.drop cap.length with
      | '"' :: rest2 => .ok (.str cap, rest2)
      | _ => .error "Unterminated string in JSON".toList)
    | '[' :: rest =>
      let r := jsonSkipWs rest
      (match r with
      | ']' :: rest2 => .ok (.arr [], rest2)
      | _ => do
        let (elems, rest2) ← jsonElemsAux fuel r
        .ok (.arr elems, rest2))
    | '{' :: rest =>
      let r := jsonSkipWs rest
      (match r with
      | '}' :: rest2 => .ok (.obj [], rest2)
      | _ => do
        let (fields, rest2) ← jsonFieldsAux fuel r
        .ok (.obj fields, rest2))
    | c :: _ =>
      if c == '-' || c.isDigit then
        let neg := c == '-'
        let ds := if neg then s.drop 1 else s
        let digits := ds.takeWhile Char.isDigit
        if digits.isEmpty then .error "No number after minus sign in JSON".toList
        else if digits.head? = some '0' && 1 < digits.length then
          .error "Unexpected number in JSON".toList
        else
          let n : Nat := digits.foldl (fun a d => a * 10 + (d.toNat - 48)) 0
          .ok (.num (if neg then -(n : Int) else (n : Int)), ds.drop digits.length)
      else .error "Unexpected token".toList

/-- Array-element list of the modelled JSON parser. -/
def jsonElemsAux : Nat → Str → Except Str (List Json × Str)
  | 0, _ => .error "Maximum call stack size exceeded".toList
  | fuel + 1, s => do
    let (v, rest) ← jsonValAux fuel s
    match jsonSkipWs rest with
    | ',' :: rest2 => do
      let (vs, rest3) ← jsonElemsAux fuel rest2
      .ok (v :: vs, rest3)
    | ']' :: rest2 => .ok ([v], rest2)
    | _ => .error "Expected comma or closing bracket in JSON".toList

/-- Object-field list of the modelled JSON parser. -/
def jsonFieldsAux : Nat → Str → Except Str (List (Str × Json) × Str)
  | 0, _ => .error "Maximum call stack size exceeded".toList
  | fuel + 1, s0 =>
    let s := jsonSkipWs s0
    match s with
    | '"' :: rest =>
      let cap := rest.takeWhile (fun c => c != '"' && c != '\\')
      (match rest.drop cap.length with
      | '"' :: rest2 =>
        (match jsonSkipWs rest2 with
        | ':' :: rest3 => do
          let (v, rest4) ← jsonValAux fuel rest3
          (match jsonSkipWs rest4 with
          | ',' :: rest5 => do
            let (fs, rest6) ← jsonFieldsAux fuel rest5
            .ok ((cap, v) :: fs, rest6)
          | '}' :: rest5 => .ok ([(cap, v)], rest5)
          | _ => .error "Expected comma or closing brace in JSON".toList)
        | _ => .error "Expected colon in JSON".toList)
      | _ => .error "Unterminated string in JSON".toList)
    | _ => .error "Expected property name in JSON".toList

end

/-- Modelled from the spec: `JSON.parse` as a `JsonParse` collaborator. -/
def jsonParseM : JsonParse := fun s => do
  let (v, rest) ← jsonValAux (s.length + 1) s
  if jsonSkipWs rest = [] then .ok v
  else .error "Unexpected non-whitespace character after JSON".toList

/-- `FileVariable` (`src/types/types.ts`). -/
structure FileVariable where
  key : Str
  value : Str
  lineNumber : Nat
  segmentId : Option Nat
deriving DecidableEq, Repr

/-- The `{ fileVariables: FileVariable[] }` wrapper used throughout the AST. -/
structure VariableGroup where
  fileVariables : List FileVariable
deriving DecidableEq, Repr

/-- `rawTextRange` of AST nodes. -/
structure RawTextRange where
  startLine : Nat
  endLine : Nat
deriving DecidableEq, Repr

/-- `ExpectedResponse` (`src/types/types.ts`); in the main pipeline the body
is always a (trimmed) raw string or `null`, so `body : Option Str`. -/
structure ExpectedResponse where
  statusCode : Int
  statusText : Option Str
  httpVersion : Option Str
  headers : List Header
  body : Option Str
  «variables» : VariableGroup
  rawTextRange : RawTextRange
deriving DecidableEq, Repr

/-- `Request` (`src/types/types.ts`). -/
structure Request where
  name : Option Str
  method : Option Str
  url : Str
  httpVersion : Option Str
  queryParams : List QueryParam
  headers : List Header
  body : Option HttpBodyResult
  blockVariables : VariableGroup
  comments : List Str
  rawTextRange : RawTextRange
  expectedResponse : Option ExpectedResponse

/-- The `Request | ExpectedResponse` union produced by `SegmentParser.parseSegment`;
the source's structural type guards (`'method' in node` / `'statusCode' in node`)
correspond to the two constructors. -/
inductive ParsedNode where
  | request (r : Request)
  | response (e : ExpectedResponse)

namespace SegmentParser

/-- `SegmentParser.findSignificantLineIndex` (`src/parsers/segment-parser.ts`):
index of the first line that is non-blank and does not start with `#` or `@`;
the source's `-1` is `none`. -/
def findSignificantLineIndex (lines : List LineContext) : Option Nat :=
  lines.findIdx? (fun l =>
    let trimmed := jsTrim l.text
    0 < trimmed.length && trimmed.head? ≠ some '#' && trimmed.head? ≠ some '@')

/-- `SegmentParser.findBodyStartIndex`: index just after the first blank line
at or after `startIndex`, or `lines.length` when there is none. -/
def findBodyStartIndex (lines : List LineContext) (startIndex : Nat) : Nat :=
  match (lines.drop startIndex).findIdx? (fun l => jsTrim l.text = []) with
  | some j => startIndex + j + 1
  | none => lines.length

/-- The regex `^\s*@name\s+(.+)$` (case-insensitive) of
`SegmentParser.extractRequestName`, including its backtracking behaviour when
only whitespace follows `@name`. -/
def nameMatch (text : Str) : Option Str :=
  let rest0 := text.dropWhile jsWs
  if jsLower (rest0.take 5) = "@name".toList then
    let rem := rest0.drop 5
    match rem.head? with
    | none => none
    | some c =>
      if jsWs c then
        let tl := rem.dropWhile jsWs
        if tl ≠ [] then some (jsTrim tl)
        else if 2 ≤ rem.length then some []
        else none
      else none
  else none

/-- `SegmentParser.extractRequestName`. -/
def extractRequestName (lines : List LineContext) : Option Str :=
  lines.findSome? (fun l => nameMatch l.text)

/-- A word character of the regex class `\w`. -/
def isWordChar (c : Char) : Bool := c.isAlphanum || c == '_'

/-- The regex `^\s*@(\w+)\s*=\s*(.*)$` of
`SegmentParser.extractBlockVariables`. -/
def blockVarMatch (text : Str) : Option (Str × Str) :=
  let rest0 := text.dropWhile jsWs
  match rest0 with
  | '@' :: rest1 =>
    let key := rest1.takeWhile isWordChar
    if key = [] then none
    else
      match (rest1.drop key.length).dropWhile jsWs with
      | '=' :: rest2 => some (key, jsTrim rest2)
      | _ => none
  | _ => none

/-- `SegmentParser.extractBlockVariables`: all `@key = value` definitions in
the segment except `@name`; the source stores `segmentId: null` here. -/
def extractBlockVariables (lines : List LineContext) : List FileVariable :=
  lines.filterMap (fun line =>
    match blockVarMatch line.text with
    | some (key, value) =>
      if jsLower key = "name".toList then none
      else some ⟨key, value, line.lineNumber, none⟩
    | none => none)

/-- The regex `^\s*#\s*(.+)$` of `SegmentParser.extractComments`, with its
backtracking behaviour when only whitespace follows `#`. -/
def commentMatch (text : Str) : Option Str :=
  let rest0 := text.dropWhile jsWs
  match rest0 with
  | '#' :: rest1 =>
    let tl := rest1.dropWhile jsWs
    if tl ≠ [] then some (jsTrim tl)
    else if rest1 ≠ [] then some []
    else none
  | _ => none

/-- `SegmentParser.extractComments`: `#` comment lines, excluding delimiter
lines and `@` directive lines. -/
def extractComments (lines : List LineContext) : List Str :=
  lines.filterMap (fun line =>
    let trimmed := jsTrim line.text
    if Segmenter.isDelimiter trimmed then none
    else if trimmed.head? = some '@' then none
    else commentMatch line.text)

/-- `SegmentParser.parseRequestSegment` (`src/parsers/segment-parser.ts`):
request line → query continuation → headers → blank separator → body.  The
uncaught `throw` of `HTTPRequestLineParser.parse` propagates as the `Except`
error.  The `registry` parameter of the source is never read and is omitted. -/
def parseRequestSegment (jsonParse : JsonParse) (seg : ClassifiedSegment) :
    Except Str (Option Request) :=
  let lines := seg.lines
  match findSignificantLineIndex lines with
  | none => .ok none
  | some significantLineIndex => do
    let requestLine := ((lines.get? significantLineIndex).map LineContext.text).getD []
    let parsedRequestLine ← HTTPRequestLineParser.parse requestLine
    let remainingLines := lines.drop (significantLineIndex + 1)
    let queryResult := QueryParser.parse remainingLines
    let headersStartIndex := significantLineIndex + 1 + queryResult.consumedLinesCount
    let headerResult := HeaderParser.parse (lines.drop headersStartIndex)
    let bodyStartLineIndex := headersStartIndex + headerResult.consumedLinesCount
    let bodyStartIndex := findBodyStartIndex lines bodyStartLineIndex
    let bodyLines := if bodyStartIndex < lines.length then lines.drop bodyStartIndex else []
    let hasBodyContent := bodyLines.any (fun l => 0 < (jsTrim l.text).length)
    let body :=
      if hasBodyContent then some (BodyParser.parse jsonParse bodyLines headerResult.headers)
      else none
    .ok (some
      { name := extractRequestName lines
        method := parsedRequestLine.method
        url := parsedRequestLine.url
        httpVersion := parsedRequestLine.httpVersion
        queryParams := queryResult.queryParams
        headers := headerResult.headers
        body := body
        blockVariables := ⟨extractBlockVariables lines⟩
        comments := extractComments lines
        rawTextRange := ⟨seg.startLine, seg.endLine⟩
        expectedResponse := none })

/-- `SegmentParser.parseResponseSegment` (`src/parsers/segment-parser.ts`):
total — a segment with no significant line yields the minimal response with
`statusCode 0`, and a response line without a status code defaults to 0. -/
def parseResponseSegment (seg : ClassifiedSegment) : ExpectedResponse :=
  let lines := seg.lines
  match findSignificantLineIndex lines with
  | none =>
    { statusCode := 0
      statusText := none
      httpVersion := none
      headers := []
      body := none
      «variables» := ⟨[]⟩
      rawTextRange := ⟨seg.startLine, seg.endLine⟩ }
  | some significantLineIndex =>
    let responseLine := ((lines.get? significantLineIndex).map LineContext.text).getD []
    let parsedResponseLine := ResponseLineParser.parse responseLine
    let headersStartIndex := significantLineIndex + 1
    let headerResult := HeaderParser.parse (lines.drop headersStartIndex)
    let bodyStartLineIndex := headersStartIndex + headerResult.consumedLinesCount
    let bodyStartIndex := findBodyStartIndex lines bodyStartLineIndex
    let bodyLines := if bodyStartIndex < lines.length then lines.drop bodyStartIndex else []
    let rawBody := joinSep ['\n'] (bodyLines.map LineContext.text)
    let body := if jsTrim rawBody = [] then none else some (jsTrim rawBody)
    { statusCode := (parsedResponseLine.statusCode).getD 0
      statusText := parsedResponseLine.statusText
      httpVersion := parsedResponseLine.httpVersion
      headers := headerResult.headers
      body := body
      «variables» := ⟨extractBlockVariables lines⟩
      rawTextRange := ⟨seg.startLine, seg.endLine⟩ }

/-- `SegmentParser.parseSegment`. -/
def parseSegment (jsonParse : JsonParse) (seg : ClassifiedSegment) :
    Except Str (Option ParsedNode) :=
  if seg.messageType = .response then
    .ok (some (.response (parseResponseSegment seg)))
  else do
    match ← parseRequestSegment jsonParse seg with
    | none => .ok none
    | some r => .ok (some (.request r))

end SegmentParser

/-- Global left-to-right replacement of a two-character pattern `[a, b]`
by `r` (model of `String.prototype.replace(/ab/g, r)`). -/
def replace2 (a b : Char) (r : Str) : Str → Str
  | [] => []
  | [c] => [c]
  | c :: d :: rest =>
    if c = a ∧ d = b then r ++ replace2 a b r rest
    else c :: replace2 a b r (d :: rest)

/-- The escape-sequence unescaping of the variable scanner:
`\n`, `\r`, `\t`, then `\\`, applied in that order. -/
def unescape (value : Str) : Str :=
  replace2 '\\' '\\' ['\\']
    (replace2 '\\' 't' ['\t']
      (replace2 '\\' 'r' ['\r']
        (replace2 '\\' 'n' ['\n'] value)))

/-- `ScanResult` (`src/types/types.ts`); `fileComments` is dropped because no
AST output depends on it. -/
structure ScanResult where
  fileVariables : List FileVariable
deriving DecidableEq, Repr

/-- Modelled from the spec: the main pipeline's `VariableScanner.scan` over
segments is not among the provided sources (only its unit tests and its
callers are).  Modelled from spec §4.4 and the scanner tests: per segment,
each line whose trimmed text is `@key = value` with no space inside the
trimmed key yields a `FileVariable` carrying the trimmed, unescaped value,
the line's 1-based number and the owning segment's id. -/
def variableScan (segments : List Segment) : ScanResult :=
  ⟨(segments.map (fun seg =>
      seg.lines.filterMap (fun line =>
        let text := jsTrim line.text
        match text with
        | '@' :: rest =>
          (match splitFirst '=' rest with
          | some (k, v) =>
            let key := jsTrim k
            if key.contains ' ' then none
            else some ⟨key, unescape (jsTrim v), line.lineNumber, some seg.segmentId⟩
          | none => none)
        | _ => none))).flatten⟩

/-- `ParseMetadata` (`src/types/types.ts`); `encoding` is the constant
`'utf-8'` default and `source` the constant `{type: 'string'}`. -/
structure ParseMetadata where
  length : Nat
  lines : Nat
deriving DecidableEq, Repr

/-- `HttpRequestAST` (`src/types/types.ts`). -/
structure HttpRequestAST where
  requests : List Request
  fileScopedVariables : VariableGroup
  globalVariables : VariableGroup

/-- `ParseResult` (`src/types/types.ts`). -/
structure ParseResult where
  text : Str
  metadata : ParseMetadata
  lineContexts : List LineContext
  segments : List Segment
  ast : HttpRequestAST

namespace HttpRequestParser

/-- `text.split(/\r?\n/)` used by `createMetadata`. -/
def splitRN : Str → List Str
  | [] => [[]]
  | '\r' :: '\n' :: rest => [] :: splitRN rest
  | '\n' :: rest => [] :: splitRN rest
  | c :: rest =>
    match splitRN rest with
    | [] => [[c]]
    | h :: t => (c :: h) :: t

/-- `HttpRequestParser.createMetadata`. -/
def createMetadata (text : Str) : ParseMetadata :=
  let lines := splitRN text
  let lineCount := if lines.length = 1 ∧ lines.getD 0 [] = [] then 1 else lines.length
  ⟨text.length, lineCount⟩

/-- The loop of `HttpRequestParser.linkResponses`: `last` is the Request the
source's `lastRequest` points at (the mutation of `expectedResponse` acts on
the object already appended to `requests`, so the pending copy is flushed
when the next request arrives or the loop ends).  An orphan response with no
preceding request is dropped (in strict mode the source only prints a
warning and still drops it). -/
def linkAux : List (Option ParsedNode) → Option Request → List Request
  | [], none => []
  | [], some last => [last]
  | none :: rest, acc => linkAux rest acc
  | some (.request r) :: rest, none => linkAux rest (some r)
  | some (.request r) :: rest, some last => last :: linkAux rest (some r)
  | some (.response _) :: rest, none => linkAux rest none
  | some (.response e) :: rest, some last =>
    linkAux rest (some { last with expectedResponse := some e })

/-- `HttpRequestParser.linkResponses` (`src/parser.ts`): associate each
response node with the most recently seen request; later responses overwrite
earlier ones. -/
def linkResponses (nodes : List (Option ParsedNode)) : List Request :=
  linkAux nodes none

/-- `HttpRequestParser.getFileScopedVariables` (`src/parser.ts`): keep only
the definitions on lines before the first line whose trimmed text is exactly
`###`; when no such line exists, keep everything. -/
def getFileScopedVariables (lineContexts : List LineContext)
    (fileVariables : List FileVariable) : List FileVariable :=
  match (lineContexts.find? (fun line => jsTrim line.text = "###".toList)).map
      LineContext.lineNumber with
  | none => fileVariables
  | some firstDelimiterLine =>
    fileVariables.filter (fun v => v.lineNumber < firstDelimiterLine)

/-- `HttpRequestParser.parseText` (`src/parser.ts`): the full pipeline.  The
`VariableRegistry` population of step 3 has no effect on the returned result
and is omitted.  An exception thrown during segment parsing (an invalid
request line) propagates out of `parseText`, hence the `Except`. -/
def parseText (jsonParse : JsonParse) (text : Str) : Except Str ParseResult := do
  let lineContexts := LineScanner.scan text
  let segments := Segmenter.segment lineContexts
  let scanResult := variableScan segments
  let classifiedSegments := SegmentClassifier.classify segments
  let parsedNodes ← classifiedSegments.mapM
    (fun seg => SegmentParser.parseSegment jsonParse seg)
  let requests := linkResponses parsedNodes
  .ok
    { text := text
      metadata := createMetadata text
      lineContexts := lineContexts
      segments := segments
      ast :=
        { requests := requests
          fileScopedVariables := ⟨getFileScopedVariables lineContexts scanResult.fileVariables⟩
          globalVariables := ⟨scanResult.fileVariables⟩ } }

end HttpRequestParser

/-- Attach an expected response to the last request of a list (the effect of
the source's `lastRequest.expectedResponse = node` mutation on the collected
`requests` array); on an empty list the response is dropped. -/
def attachToLast (e : ExpectedResponse) : List Request → List Request
  | [] => []
  | [r] => [{ r with expectedResponse := some e }]
  | r :: rest => r :: attachToLast e rest

/-- The status codes of each request's expected response, in order. -/
def requestStatusCodes (r : ParseResult) : List (Option Int) :=
  r.ast.requests.map (fun q => q.expectedResponse.map ExpectedResponse.statusCode)

/-- Whether a request's body is an error-shaped result whose message starts
with `Invalid JSON` (`none` when the request has no body). -/
def bodyErrorFlag (q : Request) : Option Bool :=
  q.body.map (fun b =>
    match b with
    | .error e _ _ _ => "Invalid JSON".toList.isPrefixOf e.message
    | .parsed _ _ _ _ => false)

/-- The delimiter-line predicate as the spec sentence for the file-scoped
view words it: trimmed text matching `^#{3,}$`. -/
def specDelimiterLine (line : LineContext) : Bool :=
  let t := jsTrim line.text
  3 ≤ t.length && t.all (· == '#')

/-- The file-scoped view as the spec sentence words it: definitions whose
line number precedes the first line matching `^#{3,}$`; all definitions when
no such line exists.  (For comparison against the code's behaviour.) -/
def fileScopedByClaim (lineContexts : List LineContext)
    (fileVariables : List FileVariable) : List FileVariable :=
  match (lineContexts.find? specDelimiterLine).map LineContext.lineNumber with
  | none => fileVariables
  | some n => fileVariables.filter (fun v => v.lineNumber < n)

/-- The file-scoped view as amended: definitions whose line number precedes
the first line whose trimmed text is exactly `###`; all definitions when no
such line exists. -/
def fileScopedAmendedSpec (lineContexts : List LineContext)
    (fileVariables : List FileVariable) : List FileVariable :=
  match (lineContexts.find? (fun line => jsTrim line.text = "###".toList)).map
      LineContext.lineNumber with
  | none => fileVariables
  | some n => fileVariables.filter (fun v => v.lineNumber < n)

/-! ## Theorems -/

theorem drop_shift (t acc rest : Str) (start : Nat)
    (h : t.drop start = acc ++ rest) : t.drop (start + acc.length) = rest := by
  rw [← List.drop_drop, h]
  simp

namespace LineScanner

theorem scanAux_ne_nil (rest acc : Str) (start ln : Nat) :
    scanAux rest acc start ln ≠ [] := by
  induction rest, acc, start, ln using scanAux.induct with
  | case1 => simp [scanAux.eq_1]
  | case2 rest acc start ln ih => simp [scanAux.eq_2]
  | case3 rest acc start ln h ih => simp [scanAux.eq_3 _ _ _ _ h]
  | case4 rest acc start ln ih => simp [scanAux.eq_4]
  | case5 c rest acc start ln h1 h2 h3 ih =>
    rw [scanAux.eq_5 _ _ _ _ _ h1 h2 h3]; exact ih

theorem scanAux_head_start (rest acc : Str) (start ln : Nat) :
    ∀ lc ∈ (scanAux rest acc start ln).head?, lc.startOffset = start := by
  induction rest, acc, start, ln using scanAux.induct with
  | case1 => simp [scanAux.eq_1]
  | case2 rest acc start ln ih => simp [scanAux.eq_2]
  | case3 rest acc start ln h ih => simp [scanAux.eq_3 _ _ _ _ h]
  | case4 rest acc start ln ih => simp [scanAux.eq_4]
  | case5 c rest acc start ln h1 h2 h3 ih =>
    rw [scanAux.eq_5 _ _ _ _ _ h1 h2 h3]; exact ih

theorem scanAux_slice (t : Str) : ∀ (rest acc : Str) (start ln : Nat),
    t.drop start = acc ++ rest →
    ∀ lc ∈ scanAux rest acc start ln,
      (t.drop lc.startOffset).take (lc.endOffset - lc.startOffset) = lc.text := by
  intro rest acc start ln
  induction rest, acc, start, ln using scanAux.induct with
  | case1 acc start ln =>
    intro hinv lc hmem
    rw [scanAux.eq_1] at hmem
    simp at hmem
    subst hmem
    simp only [Nat.add_sub_cancel_left]
    rw [hinv]
    simp
  | case2 rest acc start ln ih =>
    intro hinv lc hmem
    rw [scanAux.eq_2] at hmem
    have h0 := drop_shift t acc _ start hinv
    rcases List.mem_cons.mp hmem with h | h
    · subst h
      simp only [Nat.add_sub_cancel_left]
      rw [hinv]
      simp
    · refine ih ?_ lc h
      rw [← List.drop_drop, h0]
      simp
  | case3 rest acc start ln hne ih =>
    intro hinv lc hmem
    rw [scanAux.eq_3 _ _ _ _ hne] at hmem
    have h0 := drop_shift t acc _ start hinv
    rcases List.mem_cons.mp hmem with h | h
    · subst h
      simp only [Nat.add_sub_cancel_left]
      rw [hinv]
      simp
    · refine ih ?_ lc h
      rw [← List.drop_drop, h0]
      simp
  | case4 rest acc start ln ih =>
    intro hinv lc hmem
    rw [scanAux.eq_4] at hmem
    have h0 := drop_shift t acc _ start hinv
    rcases List.mem_cons.mp hmem with h | h
    · subst h
      simp only [Nat.add_sub_cancel_left]
      rw [hinv]
      simp
    · refine ih ?_ lc h
      rw [← List.drop_drop, h0]
      simp
  | case5 c rest acc start ln h1 h2 h3 ih =>
    intro hinv lc hmem
    rw [scanAux.eq_5 _ _ _ _ _ h1 h2 h3] at hmem
    refine ih ?_ lc hmem
    rw [hinv]; simp

theorem scanAux_reconstruct (t : Str) : ∀ (rest acc : Str) (start ln : Nat),
    t.drop start = acc ++ rest →
    reconstruct t (scanAux rest acc start ln) = acc ++ rest := by
  intro rest acc start ln
  induction rest, acc, start, ln using scanAux.induct with
  | case1 acc start ln =>
    intro hinv
    rw [scanAux.eq_1]
    simp [reconstruct]
  | case2 rest acc start ln ih =>
    intro hinv
    rw [scanAux.eq_2]
    have h0 := drop_shift t acc _ start hinv
    have hinv' : t.drop (start + acc.length + 2) = [] ++ rest := by
      rw [← List.drop_drop, h0]
      simp
    obtain ⟨hd, tl, heq⟩ := List.exists_cons_of_ne_nil
      (scanAux_ne_nil rest [] (start + acc.length + 2) (ln + 1))
    have hhd : hd.startOffset = start + acc.length + 2 := by
      have := scanAux_head_start rest [] (start + acc.length + 2) (ln + 1)
      rw [heq] at this
      simpa using this
    rw [heq, reconstruct, ← heq, ih hinv', hhd]
    simp only [List.nil_append]
    rw [show start + acc.length + 2 - (start + acc.length) = 2 by omega, h0]
    simp
  | case3 rest acc start ln hne ih =>
    intro hinv
    rw [scanAux.eq_3 _ _ _ _ hne]
    have h0 := drop_shift t acc _ start hinv
    have hinv' : t.drop (start + acc.length + 1) = [] ++ rest := by
      rw [← List.drop_drop, h0]
      simp
    obtain ⟨hd, tl, heq⟩ := List.exists_cons_of_ne_nil
      (scanAux_ne_nil rest [] (start + acc.length + 1) (ln + 1))
    have hhd : hd.startOffset = start + acc.length + 1 := by
      have := scanAux_head_start rest [] (start + acc.length + 1) (ln + 1)
      rw [heq] at this
      simpa using this
    rw [heq, reconstruct, ← heq, ih hinv', hhd]
    simp only [List.nil_append]
    rw [show start + acc.length + 1 - (start + acc.length) = 1 by omega, h0]
    simp
  | case4 rest acc start ln ih =>
    intro hinv
    rw [scanAux.eq_4]
    have h0 := drop_shift t acc _ start hinv
    have hinv' : t.drop (start + acc.length + 1) = [] ++ rest := by
      rw [← List.drop_drop, h0]
      simp
    obtain ⟨hd, tl, heq⟩ := List.exists_cons_of_ne_nil
      (scanAux_ne_nil rest [] (start + acc.length + 1) (ln + 1))
    have hhd : hd.startOffset = start + acc.length + 1 := by
      have := scanAux_head_start rest [] (start + acc.length + 1) (ln + 1)
      rw [heq] at this
      simpa using this
    rw [heq, reconstruct, ← heq, ih hinv', hhd]
    simp only [List.nil_append]
    rw [show start + acc.length + 1 - (start + acc.length) = 1 by omega, h0]
    simp
  | case5 c rest acc start ln h1 h2 h3 ih =>
    intro hinv
    rw [scanAux.eq_5 _ _ _ _ _ h1 h2 h3]
    rw [ih (by rw [hinv]; simp)]
    simp

theorem scan_slice (t : Str) :
    ∀ lc ∈ scan t,
      (t.drop lc.startOffset).take (lc.endOffset - lc.startOffset) = lc.text :=
  scanAux_slice t t [] 0 1 (by simp)

theorem scan_reconstruct (t : Str) : reconstruct t (scan t) = t :=
  scanAux_reconstruct t t [] 0 1 (by simp)

theorem scan_ne_nil (t : Str) : scan t ≠ [] := scanAux_ne_nil t [] 0 1

end LineScanner

namespace Segmenter

theorem segmentAux_no_delimiter (lines : List LineContext) :
    ∀ (cur : List LineContext) (sid : Nat),
      (∀ lc ∈ cur, isDelimiter lc.text = false) →
      ∀ seg ∈ segmentAux lines cur sid, ∀ lc ∈ seg.lines,
        isDelimiter lc.text = false := by
  induction lines with
  | nil =>
    intro cur sid hcur seg hseg lc hlc
    simp only [segmentAux] at hseg
    by_cases hc : cur.isEmpty <;> simp [hc] at hseg
    subst hseg
    exact hcur lc hlc
  | cons line rest ih =>
    intro cur sid hcur seg hseg lc hlc
    simp only [segmentAux] at hseg
    by_cases hd : isDelimiter line.text
    · simp only [hd, if_true] at hseg
      by_cases hc : cur.isEmpty
      · simp only [hc, if_true] at hseg
        exact ih [] sid (by simp) seg hseg lc hlc
      · simp only [hc, if_false] at hseg
        rcases List.mem_cons.mp hseg with h | h
        · subst h
          exact hcur lc hlc
        · exact ih [] (sid + 1) (by simp) seg h lc hlc
    · simp only [hd, if_false] at hseg
      refine ih (cur ++ [line]) sid ?_ seg hseg lc hlc
      intro x hx
      rcases List.mem_append.mp hx with h | h
      · exact hcur x h
      · simp at h
        subst h
        simpa using hd

theorem segmentAux_id_le (lines : List LineContext) :
    ∀ (cur : List LineContext) (sid : Nat),
      ∀ seg ∈ segmentAux lines cur sid, sid ≤ seg.segmentId := by
  induction lines with
  | nil =>
    intro cur sid seg hseg
    simp only [segmentAux] at hseg
    by_cases hc : cur.isEmpty <;> simp [hc] at hseg
    subst hseg
    simp [createSegment]
  | cons line rest ih =>
    intro cur sid seg hseg
    simp only [segmentAux] at hseg
    by_cases hd : isDelimiter line.text
    · simp only [hd, if_true] at hseg
      by_cases hc : cur.isEmpty
      · simp only [hc, if_true] at hseg
        exact ih [] sid seg hseg
      · simp only [hc, if_false] at hseg
        rcases List.mem_cons.mp hseg with h | h
        · subst h
          simp [createSegment]
        · exact Nat.le_of_succ_le (ih [] (sid + 1) seg h)
    · simp only [hd, if_false] at hseg
      exact ih (cur ++ [line]) sid seg hseg

theorem segmentAux_ids_sorted (lines : List LineContext) :
    ∀ (cur : List LineContext) (sid : Nat),
      (segmentAux lines cur sid).Pairwise
        (fun a b => a.segmentId < b.segmentId) := by
  induction lines with
  | nil =>
    intro cur sid
    simp only [segmentAux]
    by_cases hc : cur.isEmpty <;> simp [hc]
  | cons line rest ih =>
    intro cur sid
    simp only [segmentAux]
    by_cases hd : isDelimiter line.text
    · simp only [hd, if_true]
      by_cases hc : cur.isEmpty
      · simp only [hc, if_true]
        exact ih [] sid
      · simp only [hc, if_false]
        refine List.Pairwise.cons ?_ (ih [] (sid + 1))
        intro seg hseg
        have := segmentAux_id_le rest [] (sid + 1) seg hseg
        simp only [createSegment]
        omega
    · simp only [hd, if_false]
      exact ih (cur ++ [line]) sid

theorem segmentAux_ids_range (lines : List LineContext) :
    ∀ (cur : List LineContext) (sid : Nat),
      (segmentAux lines cur sid).map Segment.segmentId =
        List.range' sid (segmentAux lines cur sid).length := by
  induction lines with
  | nil =>
    intro cur sid
    simp only [segmentAux]
    by_cases hc : cur.isEmpty <;> simp [hc, createSegment, List.range'_succ]
  | cons line rest ih =>
    intro cur sid
    simp only [segmentAux]
    by_cases hd : isDelimiter line.text
    · simp only [hd, if_true]
      by_cases hc : cur.isEmpty
      · simp only [hc, if_true]
        exact ih [] sid
      · simp only [hc, if_false, List.map_cons, List.length_cons,
          List.range'_succ, createSegment]
        exact congrArg (List.cons sid) (ih [] (sid + 1))
    · simp only [hd, if_false]
      exact ih (cur ++ [line]) sid

/-- Segment ids emitted by `Segmenter.segment` are strictly increasing in
document order. -/
theorem segment_ids_sorted (lines : List LineContext) :
    (segment lines).Pairwise (fun a b => a.segmentId < b.segmentId) :=
  (segmentAux_ids_sorted lines [] 0).filter _

theorem segment_no_delimiter (lines : List LineContext) :
    ∀ seg ∈ segment lines, ∀ lc ∈ seg.lines, isDelimiter lc.text = false := by
  intro seg hseg lc hlc
  exact segmentAux_no_delimiter lines [] 0 (by simp) seg
    (List.mem_of_mem_filter hseg) lc hlc

end Segmenter

namespace HeaderParser

theorem hdr_characterization (lines : List LineContext) :
    parse lines =
      ⟨(lines.takeWhile consumes).filterMap emitted,
        (lines.takeWhile consumes).length⟩ := by
  induction lines with
  | nil => simp [parse]
  | cons line rest ih =>
    by_cases hb : jsTrim line.text = []
    · have hcons : consumes line = false := by
        simp [consumes, List.isEmpty_iff, hb]
      simp only [parse, hb, if_true]
      simp [List.takeWhile_cons, hcons]
    · cases hsp : splitFirst ':' line.text with
      | none =>
        simp only [parse, hb, if_false, hsp]
        have : consumes line = false := by
          simp [consumes, hsp, List.isEmpty_iff, hb]
        simp [List.takeWhile_cons, this]
      | some p =>
        obtain ⟨before, after⟩ := p
        have hcons : consumes line = true := by
          simp [consumes, hsp, List.isEmpty_iff, hb]
        by_cases hname : jsTrim before = []
        · simp only [parse, hb, if_false, hsp, hname, if_true, ih]
          have hemit : emitted line = none := by
            simp [emitted, hsp, hname]
          simp [List.takeWhile_cons, hcons, hemit]
        · simp only [parse, hb, if_false, hsp, hname, if_false, ih]
          have hemit : emitted line = some ⟨jsTrim before, jsTrim after⟩ := by
            simp [emitted, hsp, hname]
          simp [List.takeWhile_cons, hcons, hemit]

end HeaderParser

namespace QueryParser

theorem qry_characterization (lines : List LineContext) :
    parse lines =
      ⟨(lines.takeWhile consumes).filterMap emitted,
        (lines.takeWhile consumes).length⟩ := by
  induction lines with
  | nil => simp [parse]
  | cons line rest ih =>
    by_cases hq : (jsTrim line.text).head? = some '?' ∨ (jsTrim line.text).head? = some '&'
    · have hcons : consumes line = true := by
        simp only [consumes, Bool.or_eq_true, decide_eq_true_eq]
        simpa using hq
      by_cases hc : jsTrim ((jsTrim line.text).drop 1) = []
      · simp only [parse, hq, if_true, hc, if_true, ih]
        have hemit : emitted line = none := by
          simp only [emitted]
          rw [if_pos hc]
        simp [List.takeWhile_cons, hcons, hemit]
      · cases hsp : splitFirst '=' (jsTrim ((jsTrim line.text).drop 1)) with
        | some p =>
          obtain ⟨k, v⟩ := p
          simp only [parse, hq, if_true, hc, if_false, hsp, ih]
          have hemit : emitted line = some ⟨jsTrim k, jsTrim v⟩ := by
            simp only [emitted]
            rw [if_neg hc, hsp]
          simp [List.takeWhile_cons, hcons, hemit]
        | none =>
          simp only [parse, hq, if_true, hc, if_false, hsp, ih]
          have hemit : emitted line =
              some ⟨jsTrim (jsTrim ((jsTrim line.text).drop 1)), []⟩ := by
            simp only [emitted]
            rw [if_neg hc, hsp]
          simp [List.takeWhile_cons, hcons, hemit]
    · have hcons : consumes line = false := by
        simp only [consumes, Bool.or_eq_false_iff]
        constructor <;> simp only [decide_eq_false_iff_not] <;> tauto
      simp only [parse, hq, if_false]
      simp [List.takeWhile_cons, hcons]

end QueryParser

namespace HttpRequestParser

theorem linkAux_some_ne_nil (ns : List (Option ParsedNode)) :
    ∀ r : Request, linkAux ns (some r) ≠ [] := by
  induction ns with
  | nil => intro r; simp [linkAux]
  | cons n rest ih =>
    intro r
    match n with
    | none => exact ih r
    | some (.request r') => simp [linkAux]
    | some (.response e) => exact ih _

theorem linkAux_append_response (e : ExpectedResponse) :
    ∀ (ns : List (Option ParsedNode)) (acc : Option Request),
      linkAux (ns ++ [some (.response e)]) acc =
        attachToLast e (linkAux ns acc) := by
  intro ns
  induction ns with
  | nil =>
    intro acc
    cases acc <;> rfl
  | cons n rest ih =>
    intro acc
    match n, acc with
    | none, acc =>
      simpa [linkAux] using ih acc
    | some (.request r), none =>
      simpa [linkAux] using ih (some r)
    | some (.request r), some last =>
      have hne := linkAux_some_ne_nil rest r
      obtain ⟨h, t, heq⟩ := List.exists_cons_of_ne_nil hne
      have step : linkAux (rest ++ [some (ParsedNode.response e)]) (some r) =
          attachToLast e (h :: t) := by rw [ih (some r), heq]
      simp only [List.cons_append, linkAux, List.append_eq, heq, step, attachToLast]
    | some (.response e2), none =>
      simpa [linkAux] using ih none
    | some (.response e2), some last =>
      simpa [linkAux] using ih (some { last with expectedResponse := some e2 })

theorem linkAux_append_request (r : Request) :
    ∀ (ns : List (Option ParsedNode)) (acc : Option Request),
      linkAux (ns ++ [some (.request r)]) acc = linkAux ns acc ++ [r] := by
  intro ns
  induction ns with
  | nil =>
    intro acc
    cases acc <;> rfl
  | cons n rest ih =>
    intro acc
    match n, acc with
    | none, acc => simpa [linkAux] using ih acc
    | some (.request r'), none => simpa [linkAux] using ih (some r')
    | some (.request r'), some last =>
      simp [linkAux, ih (some r')]
    | some (.response e2), none => simpa [linkAux] using ih none
    | some (.response e2), some last =>
      simpa [linkAux] using ih (some { last with expectedResponse := some e2 })

end HttpRequestParser

/-- C1: every `ExpectedResponse` node is linked to the most recently emitted
request in document order — appending a response node attaches it to the last
request of the output (and an orphan response, with no preceding request, is
dropped: `attachToLast` on the empty list); appending a request appends it to
the output.  On `"POST /x\n###\nHTTP/1.1 201 Created"` the AST has exactly
one request whose `expectedResponse.statusCode` is 201, and a lone response
segment with no preceding request produces no node in the AST. -/
theorem c1_response_linking :
    (∀ (ns : List (Option ParsedNode)) (e : ExpectedResponse),
        HttpRequestParser.linkResponses (ns ++ [some (.response e)]) =
          attachToLast e (HttpRequestParser.linkResponses ns))
    ∧ (∀ (ns : List (Option ParsedNode)) (r : Request),
        HttpRequestParser.linkResponses (ns ++ [some (.request r)]) =
          HttpRequestParser.linkResponses ns ++ [r])
    ∧ ((HttpRequestParser.parseText jsonParseM
          ("POST /x\n###\nHTTP/1.1 201 Created".toList)).map
            (fun r => (r.ast.requests.length, requestStatusCodes r)) =
        .ok (1, [some 201]))
    ∧ ((HttpRequestParser.parseText jsonParseM
          ("HTTP/1.1 201 Created".toList)).map
            (fun r => r.ast.requests.length) = .ok 0) := by
  refine ⟨fun ns e => HttpRequestParser.linkAux_append_response e ns none,
    fun ns r => HttpRequestParser.linkAux_append_request r ns none, ?_, ?_⟩
  · rfl
  · rfl

/-- C2: for every input `t`, each scanned line satisfies
`t.slice(startOffset, endOffset) == text`; concatenating the line texts with
their original separators reconstructs `t` exactly; empty input yields
exactly the single zero-length line (lineNumber 1, offsets 0/0); the scanner
never returns zero lines. -/
theorem c2_line_scanner_invariants :
    (∀ t : Str, ∀ lc ∈ LineScanner.scan t,
        (t.drop lc.startOffset).take (lc.endOffset - lc.startOffset) = lc.text)
    ∧ (∀ t : Str, reconstruct t (LineScanner.scan t) = t)
    ∧ LineScanner.scan [] = [⟨1, 0, 0, []⟩]
    ∧ (∀ t : Str, LineScanner.scan t ≠ []) :=
  ⟨LineScanner.scan_slice, LineScanner.scan_reconstruct, rfl,
    LineScanner.scan_ne_nil⟩

/-- Witness for C2 at the concrete inputs `"ab\ncd"`, `"a\r\nb"` and `""`. -/
theorem c2_line_scanner_invariants_witness :
    ((("ab\ncd".toList : Str).drop 3).take (5 - 3) = "cd".toList)
    ∧ reconstruct ("a\r\nb".toList) (LineScanner.scan ("a\r\nb".toList)) =
        "a\r\nb".toList
    ∧ LineScanner.scan ("".toList) ≠ [] :=
  ⟨c2_line_scanner_invariants.1 ("ab\ncd".toList) ⟨2, 3, 5, "cd".toList⟩
      (by decide),
    c2_line_scanner_invariants.2.1 ("a\r\nb".toList),
    c2_line_scanner_invariants.2.2.2 ("".toList)⟩

/-- C3 counterexample: on `" \n###\na"` the whitespace-only first segment is
discarded only after segment ids are assigned, so the single surviving
segment carries id 1, not ids `0..N-1` as the claim states. -/
theorem c3_segment_ids_counterexample :
    ((Segmenter.segment (LineScanner.scan (" \n###\na".toList))).map
        Segment.segmentId = [1])
    ∧ ¬ ((Segmenter.segment (LineScanner.scan (" \n###\na".toList))).map
          Segment.segmentId =
        List.range
          (Segmenter.segment (LineScanner.scan (" \n###\na".toList))).length) := by
  constructor
  · rfl
  · decide

/-- C3 as amended: segment ids are assigned to the delimiter-separated
groups before blank-only groups are filtered out, so discarded groups do
reserve ids.  Precisely: the pre-filter groups carry exactly the consecutive
ids `0..M-1` in document order, the emitted list is the subsequence of those
groups that contain a non-blank line, and consequently the surviving
segments' ids are strictly increasing in document order, possibly with gaps.
On `"a\n###\nb"` (nothing discarded) the ids are `[0, 1]`. -/
theorem c3_segment_ids_assignment :
    (∀ lines : List LineContext,
        (Segmenter.segmentAux lines [] 0).map Segment.segmentId =
          List.range (Segmenter.segmentAux lines [] 0).length)
    ∧ (∀ lines : List LineContext,
        (Segmenter.segment lines).Sublist (Segmenter.segmentAux lines [] 0))
    ∧ (∀ lines : List LineContext,
        ((Segmenter.segment lines).map Segment.segmentId).Pairwise (· < ·))
    ∧ ((Segmenter.segment (LineScanner.scan ("a\n###\nb".toList))).map
        Segment.segmentId = [0, 1]) := by
  refine ⟨?_, ?_, ?_, rfl⟩
  · intro lines
    rw [List.range_eq_range']
    exact Segmenter.segmentAux_ids_range lines [] 0
  · intro lines
    exact List.filter_sublist _
  · intro lines
    exact List.pairwise_map.mpr (Segmenter.segment_ids_sorted lines)

/-- C7: no line contained in any segment emitted by the segmenter matches the
delimiter pattern `^\s*#{3,}\s*$`. -/
theorem c7_no_delimiter_in_segments (lines : List LineContext) :
    ∀ seg ∈ Segmenter.segment lines, ∀ lc ∈ seg.lines,
      Segmenter.isDelimiter lc.text = false :=
  Segmenter.segment_no_delimiter lines

/-- Witness for C7 on the segmentation of `"a\n###\nb"`. -/
theorem c7_no_delimiter_in_segments_witness :
    Segmenter.isDelimiter ("a".toList) = false :=
  c7_no_delimiter_in_segments (LineScanner.scan ("a\n###\nb".toList))
    ⟨0, 1, 1, [⟨1, 0, 1, "a".toList⟩]⟩ (by decide)
    ⟨1, 0, 1, "a".toList⟩ (by decide)

/-- C8 counterexample: the line `": x"` (trimmed header name empty) is
consumed — `consumedLinesCount = 1` — but emits no header, contradicting the
claim that every consumed line emits a header whose name is the trimmed text
before the first colon. -/
theorem c8_header_empty_name_counterexample :
    (HeaderParser.parse [⟨1, 0, 3, ": x".toList⟩]).consumedLinesCount = 1
    ∧ (HeaderParser.parse [⟨1, 0, 3, ": x".toList⟩]).headers = [] := by
  constructor
  · rfl
  · rfl

/-- C8 as amended: header parsing consumes exactly the leading lines that are
non-blank and contain a colon (the first blank line or colon-free line is
neither consumed nor counted); a consumed line emits a header — name the
trimmed text before the first colon, value the trimmed text after it — only
when that trimmed name is nonempty, and lines with an empty trimmed name are
consumed without emitting.  On
`["Content-Type: application/json", "", "body"]` this yields exactly one
header and `consumedLinesCount = 1`. -/
theorem c8_header_parse :
    (∀ lines : List LineContext,
        HeaderParser.parse lines =
          ⟨(lines.takeWhile HeaderParser.consumes).filterMap HeaderParser.emitted,
            (lines.takeWhile HeaderParser.consumes).length⟩)
    ∧ HeaderParser.parse
        [⟨1, 0, 30, "Content-Type: application/json".toList⟩,
          ⟨2, 31, 31, []⟩, ⟨3, 32, 36, "body".toList⟩] =
      ⟨[⟨"Content-Type".toList, "application/json".toList⟩], 1⟩ := by
  constructor
  · exact HeaderParser.hdr_characterization
  · rfl

/-- C9 counterexample: the line `"?"` (empty remainder after the prefix) is
consumed — `consumedLinesCount = 1` — but emits no parameter, contradicting
the claim that every consumed line is split into a key/value parameter. -/
theorem c9_query_empty_remainder_counterexample :
    (QueryParser.parse [⟨1, 0, 1, "?".toList⟩]).consumedLinesCount = 1
    ∧ (QueryParser.parse [⟨1, 0, 1, "?".toList⟩]).queryParams = [] := by
  constructor
  · rfl
  · rfl

/-- C9 as amended: query parsing consumes exactly the leading lines whose
trimmed text starts with `?` or `&`, reporting their count; each consumed
line whose remainder (after stripping the one prefix character and trimming)
is nonempty contributes one parameter — split at the first `=` into trimmed
key and trimmed value, the value defaulting to the empty string without `=` —
in input order; a consumed line with an empty remainder contributes no
parameter.  `parse(["?a=1","&b=2","X: y"])` yields `(a,1),(b,2)` with
`consumedLinesCount = 2`. -/
theorem c9_query_parse :
    (∀ lines : List LineContext,
        QueryParser.parse lines =
          ⟨(lines.takeWhile QueryParser.consumes).filterMap QueryParser.emitted,
            (lines.takeWhile QueryParser.consumes).length⟩)
    ∧ QueryParser.parse
        [⟨1, 0, 4, "?a=1".toList⟩, ⟨2, 5, 9, "&b=2".toList⟩,
          ⟨3, 10, 14, "X: y".toList⟩] =
      ⟨[⟨"a".toList, "1".toList⟩, ⟨"b".toList, "2".toList⟩], 2⟩ := by
  constructor
  · exact QueryParser.qry_characterization
  · rfl

/-- C4 counterexample: on `"FOO /x"` (invalid method token) the request-line
parser's exception propagates uncaught out of `parseText`, so the whole parse
aborts with an error instead of returning a `ParseResult`. -/
theorem c4_invalid_method_aborts :
    HttpRequestParser.parseText jsonParseM ("FOO /x".toList) =
      .error ("Invalid request line: FOO /x".toList) := rfl

/-- C4 as amended: an unparsable JSON body is localized — the offending body
produces an error-shaped result (status, message, optional line number)
while the rest of the document continues to parse (here the second request
`GET /y` still appears) — but a structural error on the request line itself,
such as an invalid method token, is thrown and propagates out of
`parseText`, aborting the whole parse. -/
theorem c4_error_localization :
    ((HttpRequestParser.parseText jsonParseM
        ("POST /x\nContent-Type: application/json\n\n\x7binvalid\n###\nGET /y".toList)).map
          (fun r => (r.ast.requests.map Request.url,
            r.ast.requests.map bodyErrorFlag)) =
      .ok (["/x".toList, "/y".toList], [some true, none]))
    ∧ (∃ e, HttpRequestParser.parseText jsonParseM ("FOO /x".toList) =
        .error e) :=
  ⟨rfl, ⟨_, rfl⟩⟩

theorem parseText_ok_fields (jp : JsonParse) (text : Str) (r : ParseResult)
    (h : HttpRequestParser.parseText jp text = .ok r) :
    r.lineContexts = LineScanner.scan text
    ∧ r.ast.globalVariables.fileVariables =
        (variableScan (Segmenter.segment (LineScanner.scan text))).fileVariables
    ∧ r.ast.fileScopedVariables.fileVariables =
        HttpRequestParser.getFileScopedVariables (LineScanner.scan text)
          (variableScan (Segmenter.segment (LineScanner.scan text))).fileVariables := by
  simp only [HttpRequestParser.parseText] at h
  cases hm : (SegmentClassifier.classify
      (Segmenter.segment (LineScanner.scan text))).mapM
      (fun seg => SegmentParser.parseSegment jp seg) with
  | error e =>
    rw [hm] at h
    exact Except.noConfusion h
  | ok ns =>
    rw [hm] at h
    obtain rfl := (Except.ok.inj h).symm
    exact ⟨rfl, rfl, rfl⟩

/-- C5 counterexample: with a four-hash delimiter `"####"` the claim's rule
(definitions before the first line matching `^#{3,}$`) keeps only `@a`, but
`getFileScopedVariables` searches for the exact trimmed text `###`, finds
nothing, and returns all definitions — the fileScoped view contains both
`a` and `b`. -/
theorem c5_file_scoped_counterexample :
    ((HttpRequestParser.parseText jsonParseM
        ("@a = 1\n####\n@b = 2\nGET /x".toList)).map
          (fun r => r.ast.fileScopedVariables.fileVariables.map FileVariable.key) =
      .ok ["a".toList, "b".toList])
    ∧ ((fileScopedByClaim
          (LineScanner.scan ("@a = 1\n####\n@b = 2\nGET /x".toList))
          (variableScan (Segmenter.segment
            (LineScanner.scan ("@a = 1\n####\n@b = 2\nGET /x".toList)))).fileVariables).map
            FileVariable.key = ["a".toList])
    ∧ (["a".toList, "b".toList] ≠ (["a".toList] : List Str)) := by
  refine ⟨rfl, rfl, ?_⟩
  decide

/-- C5 as amended: the AST's fileScoped view contains exactly the
file-variable definitions whose line number precedes the first line whose
trimmed text is exactly `###` (independent of segment ids; delimiters of
four or more hashes are not considered), and all definitions when no such
line exists.  On `"@base = http://x\n###\nGET {{base}}/y"` the fileScoped
view has length 1 and the request's blockVariables is empty. -/
theorem c5_file_scoped :
    (∀ (lineContexts : List LineContext) (fileVariables : List FileVariable),
        HttpRequestParser.getFileScopedVariables lineContexts fileVariables =
          fileScopedAmendedSpec lineContexts fileVariables)
    ∧ (∀ (jp : JsonParse) (text : Str) (r : ParseResult),
        HttpRequestParser.parseText jp text = .ok r →
        r.ast.fileScopedVariables.fileVariables =
          fileScopedAmendedSpec r.lineContexts
            r.ast.globalVariables.fileVariables)
    ∧ ((HttpRequestParser.parseText jsonParseM
          ("@base = http://x\n###\nGET {{base}}/y".toList)).map
            (fun r => (r.ast.fileScopedVariables.fileVariables.length,
              r.ast.requests.map
                (fun q => q.blockVariables.fileVariables.length))) =
        .ok (1, [0])) := by
  refine ⟨fun lineContexts fileVariables => rfl, ?_, rfl⟩
  intro jp text r h
  obtain ⟨h1, h2, h3⟩ := parseText_ok_fields jp text r h
  rw [h1, h2, h3]
  rfl

/-- Witness for C5 at `"@base = http://x\n###\nGET {{base}}/y"`. -/
theorem c5_file_scoped_witness :
    ∃ r : ParseResult,
      HttpRequestParser.parseText jsonParseM
          ("@base = http://x\n###\nGET {{base}}/y".toList) = .ok r
      ∧ r.ast.fileScopedVariables.fileVariables =
          fileScopedAmendedSpec r.lineContexts
            r.ast.globalVariables.fileVariables :=
  ⟨_, rfl, c5_file_scoped.2.1 jsonParseM
    ("@base = http://x\n###\nGET {{base}}/y".toList) _ rfl⟩

/-- C10: the main pipeline's segment parser always produces an
`ExpectedResponse` node for a response-typed segment: a segment with no
significant content line yields the minimal node with `statusCode = 0`, a
response line without an integer status-code token (e.g. `"HTTP/1.1
Created"`) yields a node with `statusCode` defaulted to 0, and through the
whole pipeline `"GET /x\n###\nHTTP/1.1 Created"` gives the request an
expected response with `statusCode = 0`. -/
theorem c10_response_status_defaults :
    (∀ seg : ClassifiedSegment,
        SegmentParser.findSignificantLineIndex seg.lines = none →
        SegmentParser.parseResponseSegment seg =
          ⟨0, none, none, [], none, ⟨[]⟩, ⟨seg.startLine, seg.endLine⟩⟩)
    ∧ (∀ (seg : ClassifiedSegment) (idx : Nat),
        SegmentParser.findSignificantLineIndex seg.lines = some idx →
        (ResponseLineParser.parse
            (((seg.lines.get? idx).map LineContext.text).getD [])).statusCode =
          none →
        (SegmentParser.parseResponseSegment seg).statusCode = 0)
    ∧ ((HttpRequestParser.parseText jsonParseM
          ("GET /x\n###\nHTTP/1.1 Created".toList)).map requestStatusCodes =
        .ok [some 0]) := by
  refine ⟨?_, ?_, rfl⟩
  · intro seg hsig
    simp only [SegmentParser.parseResponseSegment, hsig]
  · intro seg idx hsig hcode
    simp only [SegmentParser.parseResponseSegment, hsig, hcode, Option.getD_none]

/-- Witness for C10: a comment-only response-typed segment, and the segment
`"HTTP/1.1 Created"` whose response line has no status-code token. -/
theorem c10_response_status_defaults_witness :
    SegmentParser.parseResponseSegment
        ⟨⟨0, 1, 1, [⟨1, 0, 9, "# comment".toList⟩]⟩, .response, .http, 1, []⟩ =
      ⟨0, none, none, [], none, ⟨[]⟩, ⟨1, 1⟩⟩
    ∧ (SegmentParser.parseResponseSegment
        ⟨⟨0, 1, 1, [⟨1, 0, 16, "HTTP/1.1 Created".toList⟩]⟩, .response, .http,
          1, "HTTP/1.1 Created".toList⟩).statusCode = 0 :=
  ⟨c10_response_status_defaults.1
      ⟨⟨0, 1, 1, [⟨1, 0, 9, "# comment".toList⟩]⟩, .response, .http, 1, []⟩
      (by decide),
    c10_response_status_defaults.2.1
      ⟨⟨0, 1, 1, [⟨1, 0, 16, "HTTP/1.1 Created".toList⟩]⟩, .response, .http,
        1, "HTTP/1.1 Created".toList⟩ 0 (by decide) (by decide)⟩

/-- C6 counterexample: a whitespace-only body with `Content-Type:
application/json` is not valid JSON (the host parser rejects it), yet
`BodyParser.parse` returns a parsed empty-text result instead of the error
result the claim requires for every invalid-JSON body. -/
theorem c6_blank_json_body_counterexample :
    BodyParser.parse jsonParseM [⟨1, 0, 1, " ".toList⟩]
        [⟨"Content-Type".toList, "application/json".toList⟩] =
      .parsed (.text []) (" ".toList) (some ("application/json".toList)) 1
    ∧ (∃ e, jsonParseM (jsTrim (" ".toList)) = .error e) :=
  ⟨rfl, ⟨_, rfl⟩⟩

/-- C6 as amended: for a nonempty line list whose `Content-Type` header is
`application/json` or `text/json`, `BodyParser.parse` never throws: a blank
body yields a parsed empty-text result (not an error); a nonblank body that
the host JSON parser rejects yields an error result carrying the raw text,
the content type, the UTF-8 byte size and a message starting with
`Invalid JSON`; a nonblank body the host parser accepts yields a parsed
result of kind `json` holding the host parser's value. -/
theorem c6_json_body_dispatch (jp : JsonParse) (lines : List LineContext)
    (headers : List Header) (hne : lines ≠ [])
    (hct : jsTrim (jsLower ((BodyParser.extractContentType headers).getD [])) =
        "application/json".toList ∨
      jsTrim (jsLower ((BodyParser.extractContentType headers).getD [])) =
        "text/json".toList) :
    (jsTrim (joinSep ['\n'] (lines.map LineContext.text)) = [] →
      BodyParser.parse jp lines headers =
        .parsed (.text []) (joinSep ['\n'] (lines.map LineContext.text))
          (BodyParser.extractContentType headers)
          (utf8Len (joinSep ['\n'] (lines.map LineContext.text))))
    ∧ (∀ e, jsTrim (joinSep ['\n'] (lines.map LineContext.text)) ≠ [] →
        jp (jsTrim (joinSep ['\n'] (lines.map LineContext.text))) = .error e →
        BodyParser.parse jp lines headers =
          .error ⟨"Invalid JSON: ".toList ++ e, none⟩
            (joinSep ['\n'] (lines.map LineContext.text))
            (BodyParser.extractContentType headers)
            (utf8Len (joinSep ['\n'] (lines.map LineContext.text))))
    ∧ (∀ d, jsTrim (joinSep ['\n'] (lines.map LineContext.text)) ≠ [] →
        jp (jsTrim (joinSep ['\n'] (lines.map LineContext.text))) = .ok d →
        BodyParser.parse jp lines headers =
          .parsed (.json d) (joinSep ['\n'] (lines.map LineContext.text))
            (BodyParser.extractContentType headers)
            (utf8Len (joinSep ['\n'] (lines.map LineContext.text)))) := by
  have hempty : lines.isEmpty = false := by
    cases lines with
    | nil => exact absurd rfl hne
    | cons a b => rfl
  have hJson : (hasInfix
      (jsTrim (jsLower ((BodyParser.extractContentType headers).getD [])))
      ("application/json".toList) ||
    hasInfix
      (jsTrim (jsLower ((BodyParser.extractContentType headers).getD [])))
      ("text/json".toList)) = true := by
    rcases hct with h | h <;> rw [h] <;> decide
  have hForm : hasInfix
      (jsTrim (jsLower ((BodyParser.extractContentType headers).getD [])))
      ("application/x-www-form-urlencoded".toList) = false := by
    rcases hct with h | h <;> rw [h] <;> decide
  refine ⟨?_, ?_, ?_⟩
  · intro hb
    simp only [BodyParser.parse, hempty, Bool.false_eq_true, if_false, hb,
      if_pos, hForm, Bool.false_eq_true, if_false,
      BodyParser.createSuccessResult, BodyParser.calculateSize, Option.getD_some]
  · intro e hnb hjp
    have hpj : BodyParser.parseJson jp (joinSep ['\n'] (lines.map LineContext.text)) =
        .error ("Invalid JSON: ".toList ++ e) := by
      simp only [BodyParser.parseJson, List.isEmpty_iff, hnb, if_false, hjp]
    have hpbct : BodyParser.parseByContentType jp
        (joinSep ['\n'] (lines.map LineContext.text))
        (BodyParser.extractContentType headers) =
        .error ("Invalid JSON: ".toList ++ e) := by
      simp only [BodyParser.parseByContentType, hJson, if_true, hpj]
    simp only [BodyParser.parse, hempty, Bool.false_eq_true, if_false, hnb,
      if_neg, hpbct, BodyParser.createErrorResult, BodyParser.calculateSize,
      Option.getD_some]
  · intro d hnb hjp
    have hpj : BodyParser.parseJson jp (joinSep ['\n'] (lines.map LineContext.text)) =
        .ok (.json d) := by
      simp only [BodyParser.parseJson, List.isEmpty_iff, hnb, if_false, hjp]
    have hpbct : BodyParser.parseByContentType jp
        (joinSep ['\n'] (lines.map LineContext.text))
        (BodyParser.extractContentType headers) = .ok (.json d) := by
      simp only [BodyParser.parseByContentType, hJson, if_true, hpj]
    simp only [BodyParser.parse, hempty, Bool.false_eq_true, if_false, hnb,
      if_neg, hpbct, BodyParser.createSuccessResult, BodyParser.calculateSize,
      Option.getD_some]

/-- Witness for C6: `{"a":1}` parses to a `json`-kind body holding the host
parser's object, and `{invalid` gives an error result carrying the raw text,
content type, byte size 8 and an `Invalid JSON` message. -/
theorem c6_json_body_dispatch_witness :
    BodyParser.parse jsonParseM [⟨1, 0, 8, "\x7binvalid".toList⟩]
        [⟨"Content-Type".toList, "application/json".toList⟩] =
      .error
        ⟨"Invalid JSON: ".toList ++ "Expected property name in JSON".toList,
          none⟩
        ("\x7binvalid".toList) (some ("application/json".toList)) 8 :=
  c6_json_body_dispatch jsonParseM [⟨1, 0, 8, "\x7binvalid".toList⟩]
    [⟨"Content-Type".toList, "application/json".toList⟩]
    (by decide) (Or.inl (by decide))
    |>.2.1 ("Expected property name in JSON".toList) (by decide) rfl

end HttpParser
